import Mathlib

/-!
Verification of the rebalance decision logic of the `winners` Zipline strategy
(repository `zipline-intro`).

The repository's notebooks show the strategy's pipeline selection
(`before_trading_start`: sort the pipeline's `1y_returns` column descending and
keep the first three index entries) and the data-access part of `rebalance`
(current prices and prior closes are requested only for `context.winners`, and
`intraday_returns = (current_prices - prior_closes) / prior_closes`).  The body
of the enter/exit loop lives in `winners.py`, which is referenced by the
notebooks but not included; that part is modelled from the specification of the
`RebalanceDecisionEngine` (its `decide` contract).

Prices are modelled as rational numbers, price snapshots as association lists
from identifier to price, and the fallible engine returns `Except DataError`.
-/

namespace Winners

/-- Instrument identifier (a sid / symbol such as `"FIBBG000B9XRY4"`). -/
abbrev Identifier := String

/-- PriceSnapshot: a mapping from instrument identifier to an observed price
(current intraday price or prior-day closing price), modelled as an
association list. -/
abbrev PriceSnapshot := List (Identifier × ℚ)

/-- Position holdings: a mapping from instrument identifier to held quantity,
modelled as an association list in the order the positions were supplied. -/
abbrev Positions := List (Identifier × ℚ)

/-- Price lookup in a snapshot: first entry whose identifier matches, `none`
when the snapshot has no entry for the identifier. -/
def lookupPrice (snap : PriceSnapshot) (id : Identifier) : Option ℚ :=
  (snap.find? (fun e => e.1 == id)).map Prod.snd

/-- Intraday return of one instrument, from Part4 and the `rebalance` code of
Part5: `intraday_returns = (current_prices - prior_closes) / prior_closes`. -/
def intradayReturn (priceNow priorClose : ℚ) : ℚ :=
  (priceNow - priorClose) / priorClose

/-- Identifiers currently held (the keys of the positions mapping). -/
def heldIds (positions : Positions) : List Identifier :=
  positions.map Prod.fst

/-- Decision: the engine's per-instrument output, one of Enter / Exit / Hold. -/
inductive Decision where
  | enter (id : Identifier)
  | exit (id : Identifier)
  | hold (id : Identifier)
  deriving DecidableEq

/-- Whether a decision is an Exit. -/
def Decision.isExit : Decision → Bool
  | .exit _ => true
  | _ => false

/-- Whether a decision is an Enter. -/
def Decision.isEnter : Decision → Bool
  | .enter _ => true
  | _ => false

/-- DataError: raised when a required price is missing or a prior close is
zero. -/
inductive DataError where
  | missingPrice (id : Identifier)
  | zeroPriorClose (id : Identifier)
  deriving DecidableEq

/-- Modelled from the spec: the decision for a single candidate (step 2 of the
`decide` algorithm; the concrete loop body lives in the absent `winners.py`).
Look up the candidate's current price and prior close (missing entries raise
`DataError`, a zero prior close raises `DataError` before dividing); enter when
the intraday return is strictly negative and the identifier has no existing
position, otherwise hold. -/
def candidateDecision (positions : Positions)
    (pricesNow pricesPriorClose : PriceSnapshot) (id : Identifier) :
    Except DataError Decision :=
  match lookupPrice pricesNow id with
  | none => .error (.missingPrice id)
  | some priceNow =>
    match lookupPrice pricesPriorClose id with
    | none => .error (.missingPrice id)
    | some priorClose =>
      if priorClose = 0 then .error (.zeroPriorClose id)
      else if intradayReturn priceNow priorClose < 0 ∧ id ∉ heldIds positions then
        .ok (.enter id)
      else
        .ok (.hold id)

/-- Modelled from the spec: process the candidates in rank order, stopping at
the first `DataError`. -/
def decideCandidates (positions : Positions)
    (pricesNow pricesPriorClose : PriceSnapshot) :
    List Identifier → Except DataError (List Decision)
  | [] => .ok []
  | id :: rest =>
    match candidateDecision positions pricesNow pricesPriorClose id with
    | .error e => .error e
    | .ok d =>
      match decideCandidates positions pricesNow pricesPriorClose rest with
      | .error e => .error e
      | .ok ds => .ok (d :: ds)

/-- Modelled from the spec: `decide(candidates, positions, prices_now,
prices_prior_close)` of the RebalanceDecisionEngine (the enter/exit loop of
`rebalance` in the absent `winners.py`).  Emit Exit for every held identifier
no longer among the candidates, in the order the positions were supplied; then
one Enter/Hold decision per candidate in rank order.  Prices are looked up only
for candidates, matching the `rebalance` code, which requests `data.current`
and `data.history` only for `context.winners`.  A `DataError` aborts the whole
invocation: no decisions are returned. -/
def decide (candidates : List Identifier) (positions : Positions)
    (pricesNow pricesPriorClose : PriceSnapshot) :
    Except DataError (List Decision) :=
  match decideCandidates positions pricesNow pricesPriorClose candidates with
  | .error e => .error e
  | .ok candDecs =>
    .ok (((positions.filter (fun pos => !(candidates.contains pos.1))).map
      (fun pos => Decision.exit pos.1)) ++ candDecs)

/-- Exit decisions for positions no longer among the candidates, in the order
the positions were supplied. -/
def exitDecisions (candidates : List Identifier) (positions : Positions) :
    List Decision :=
  (positions.filter (fun pos => !(candidates.contains pos.1))).map
    (fun pos => Decision.exit pos.1)

/-- Exit portion of an engine result (errors pass through). -/
def exitPortion : Except DataError (List Decision) → Except DataError (List Decision)
  | .error e => .error e
  | .ok ds => .ok (ds.filter Decision.isExit)

/-- Sorting step of `before_trading_start`:
`returns = factors["1y_returns"].sort_values(ascending=False)`. -/
def sortValuesDescending (factors : List (Identifier × ℚ)) :
    List (Identifier × ℚ) :=
  factors.mergeSort (fun a b => Decidable.decide (b.2 ≤ a.2))

/-- Daily candidate selection from `before_trading_start` in Part5:
`context.winners = returns.index[:3]` after sorting `1y_returns` descending. -/
def before_trading_start (factors : List (Identifier × ℚ)) : List Identifier :=
  ((sortValuesDescending factors).map Prod.fst).take 3

theorem candidateDecision_ok_shape {positions : Positions}
    {pn ppc : PriceSnapshot} {id : Identifier} {d : Decision}
    (h : candidateDecision positions pn ppc id = .ok d) :
    d = .enter id ∨ d = .hold id := by
  unfold candidateDecision at h
  rcases hn : lookupPrice pn id with _ | n <;> rw [hn] at h
  · simp at h
  rcases hp : lookupPrice ppc id with _ | p <;> rw [hp] at h
  · simp at h
  dsimp only at h
  by_cases h0 : p = 0
  · simp [h0] at h
  rw [if_neg h0] at h
  by_cases hcond : intradayReturn n p < 0 ∧ id ∉ heldIds positions
  · rw [if_pos hcond] at h
    cases h
    exact Or.inl rfl
  · rw [if_neg hcond] at h
    cases h
    exact Or.inr rfl

theorem candidateDecision_enter_iff {positions : Positions}
    {pn ppc : PriceSnapshot} {id : Identifier} {n p : ℚ}
    (hn : lookupPrice pn id = some n) (hp : lookupPrice ppc id = some p)
    (h0 : p ≠ 0) :
    (candidateDecision positions pn ppc id = .ok (.enter id) ↔
      (intradayReturn n p < 0 ∧ id ∉ heldIds positions)) ∧
    (candidateDecision positions pn ppc id = .ok (.hold id) ↔
      ¬(intradayReturn n p < 0 ∧ id ∉ heldIds positions)) := by
  unfold candidateDecision
  rw [hn, hp]
  dsimp only
  rw [if_neg h0]
  by_cases hcond : intradayReturn n p < 0 ∧ id ∉ heldIds positions
  · rw [if_pos hcond]
    simp [hcond]
  · rw [if_neg hcond]
    simp [hcond]

theorem candidateDecision_enter_inversion {positions : Positions}
    {pn ppc : PriceSnapshot} {id id' : Identifier}
    (h : candidateDecision positions pn ppc id = .ok (.enter id')) :
    id' = id ∧
    ∃ n p, lookupPrice pn id = some n ∧ lookupPrice ppc id = some p ∧
      p ≠ 0 ∧ intradayReturn n p < 0 ∧ id ∉ heldIds positions := by
  unfold candidateDecision at h
  rcases hn : lookupPrice pn id with _ | n <;> rw [hn] at h
  · simp at h
  rcases hp : lookupPrice ppc id with _ | p <;> rw [hp] at h
  · simp at h
  dsimp only at h
  by_cases h0 : p = 0
  · simp [h0] at h
  rw [if_neg h0] at h
  by_cases hcond : intradayReturn n p < 0 ∧ id ∉ heldIds positions
  · rw [if_pos hcond] at h
    cases h
    exact ⟨rfl, n, p, rfl, rfl, h0, hcond⟩
  · rw [if_neg hcond] at h
    cases h

theorem candidateDecision_error_of_zero_prior {positions : Positions}
    {pn ppc : PriceSnapshot} {id : Identifier}
    (hp : lookupPrice ppc id = some 0) :
    ∃ e, candidateDecision positions pn ppc id = .error e := by
  unfold candidateDecision
  rcases hn : lookupPrice pn id with _ | n
  · exact ⟨.missingPrice id, rfl⟩
  · rw [hp]
    exact ⟨.zeroPriorClose id, by simp⟩

theorem candidateDecision_error_of_missing {positions : Positions}
    {pn ppc : PriceSnapshot} {id : Identifier}
    (h : lookupPrice pn id = none ∨ lookupPrice ppc id = none) :
    ∃ e, candidateDecision positions pn ppc id = .error e := by
  unfold candidateDecision
  rcases hn : lookupPrice pn id with _ | n
  · exact ⟨.missingPrice id, rfl⟩
  rcases hp : lookupPrice ppc id with _ | p
  · exact ⟨.missingPrice id, rfl⟩
  rcases h with h | h
  · rw [hn] at h
    cases h
  · rw [hp] at h
    cases h

theorem candidateDecision_congr {positions : Positions}
    {pn pn' ppc ppc' : PriceSnapshot} {id : Identifier}
    (hn : lookupPrice pn id = lookupPrice pn' id)
    (hp : lookupPrice ppc id = lookupPrice ppc' id) :
    candidateDecision positions pn ppc id =
      candidateDecision positions pn' ppc' id := by
  unfold candidateDecision
  rw [hn, hp]

theorem decideCandidates_mem_ok {positions : Positions}
    {pn ppc : PriceSnapshot} {l : List Identifier} {ds : List Decision}
    (h : decideCandidates positions pn ppc l = .ok ds) {d : Decision}
    (hd : d ∈ ds) :
    ∃ id ∈ l, candidateDecision positions pn ppc id = .ok d := by
  induction l generalizing ds with
  | nil =>
    unfold decideCandidates at h
    cases h
    cases hd
  | cons a rest ih =>
    unfold decideCandidates at h
    rcases hcd : candidateDecision positions pn ppc a with e | d0 <;>
      rw [hcd] at h
    · cases h
    rcases hrest : decideCandidates positions pn ppc rest with e | ds' <;>
      rw [hrest] at h
    · cases h
    cases h
    rcases List.mem_cons.mp hd with hd | hd
    · exact ⟨a, List.mem_cons_self a rest, hd ▸ hcd⟩
    · obtain ⟨id, hid, hcd'⟩ := ih hrest hd
      exact ⟨id, List.mem_cons_of_mem a hid, hcd'⟩

theorem decideCandidates_ok_of_mem {positions : Positions}
    {pn ppc : PriceSnapshot} {l : List Identifier} {ds : List Decision}
    (h : decideCandidates positions pn ppc l = .ok ds) {id : Identifier}
    (hid : id ∈ l) {d : Decision}
    (hcd : candidateDecision positions pn ppc id = .ok d) :
    d ∈ ds := by
  induction l generalizing ds with
  | nil => cases hid
  | cons a rest ih =>
    unfold decideCandidates at h
    rcases hcda : candidateDecision positions pn ppc a with e | d0 <;>
      rw [hcda] at h
    · cases h
    rcases hrest : decideCandidates positions pn ppc rest with e | ds' <;>
      rw [hrest] at h
    · cases h
    cases h
    rcases List.mem_cons.mp hid with hid | hid
    · subst hid
      rw [hcd] at hcda
      cases hcda
      exact List.mem_cons_self _ _
    · exact List.mem_cons_of_mem d0 (ih hrest hid)

theorem decideCandidates_error_of_mem {positions : Positions}
    {pn ppc : PriceSnapshot} {l : List Identifier} {id : Identifier}
    (hid : id ∈ l) {e : DataError}
    (hcd : candidateDecision positions pn ppc id = .error e) :
    ∃ e', decideCandidates positions pn ppc l = .error e' := by
  induction l with
  | nil => cases hid
  | cons a rest ih =>
    unfold decideCandidates
    rcases List.mem_cons.mp hid with hid | hid
    · subst hid
      rw [hcd]
      exact ⟨e, rfl⟩
    · rcases hcda : candidateDecision positions pn ppc a with e0 | d0
      · exact ⟨e0, rfl⟩
      · obtain ⟨e', he'⟩ := ih hid
        rw [he']
        exact ⟨e', rfl⟩

theorem decideCandidates_filter_enter_sublist {positions : Positions}
    {pn ppc : PriceSnapshot} {l : List Identifier} {ds : List Decision}
    (h : decideCandidates positions pn ppc l = .ok ds) :
    ∃ entered : List Identifier, entered.Sublist l ∧
      ds.filter Decision.isEnter = entered.map Decision.enter := by
  induction l generalizing ds with
  | nil =>
    unfold decideCandidates at h
    cases h
    exact ⟨[], List.Sublist.refl [], rfl⟩
  | cons a rest ih =>
    unfold decideCandidates at h
    rcases hcd : candidateDecision positions pn ppc a with e | d0 <;>
      rw [hcd] at h
    · cases h
    rcases hrest : decideCandidates positions pn ppc rest with e | ds' <;>
      rw [hrest] at h
    · cases h
    cases h
    obtain ⟨entered, hsub, hfil⟩ := ih hrest
    rcases candidateDecision_ok_shape hcd with hd0 | hd0 <;> subst hd0
    · refine ⟨a :: entered, List.Sublist.cons₂ a hsub, ?_⟩
      simp [List.filter_cons, Decision.isEnter, hfil]
    · refine ⟨entered, List.Sublist.cons a hsub, ?_⟩
      simp [List.filter_cons, Decision.isEnter, hfil]

theorem decideCandidates_congr {positions : Positions}
    {pn pn' ppc ppc' : PriceSnapshot} {l : List Identifier}
    (h : ∀ id ∈ l, lookupPrice pn id = lookupPrice pn' id ∧
      lookupPrice ppc id = lookupPrice ppc' id) :
    decideCandidates positions pn ppc l = decideCandidates positions pn' ppc' l := by
  induction l with
  | nil => rfl
  | cons a rest ih =>
    unfold decideCandidates
    rw [candidateDecision_congr (h a (List.mem_cons_self a rest)).1
      (h a (List.mem_cons_self a rest)).2]
    rw [ih (fun id hid => h id (List.mem_cons_of_mem a hid))]

theorem decide_eq_ok_iff {candidates : List Identifier} {positions : Positions}
    {pn ppc : PriceSnapshot} {ds : List Decision} :
    decide candidates positions pn ppc = .ok ds ↔
    ∃ cds, decideCandidates positions pn ppc candidates = .ok cds ∧
      ds = exitDecisions candidates positions ++ cds := by
  unfold decide exitDecisions
  rcases hdc : decideCandidates positions pn ppc candidates with e | cds
  · constructor
    · intro h
      cases h
    · rintro ⟨cds, hc, _⟩
      cases hc
  · constructor
    · intro h
      cases h
      exact ⟨cds, rfl, rfl⟩
    · rintro ⟨cds', hc, hds⟩
      cases hc
      rw [hds]

theorem decide_eq_error_of_candidate_error {candidates : List Identifier}
    {positions : Positions} {pn ppc : PriceSnapshot} {id : Identifier}
    (hid : id ∈ candidates) {e : DataError}
    (hcd : candidateDecision positions pn ppc id = .error e) :
    ∃ e', decide candidates positions pn ppc = .error e' := by
  obtain ⟨e', he'⟩ := decideCandidates_error_of_mem hid hcd
  unfold decide
  rw [he']
  exact ⟨e', rfl⟩

theorem mem_exitDecisions_iff {candidates : List Identifier}
    {positions : Positions} {d : Decision} :
    d ∈ exitDecisions candidates positions ↔
    ∃ pos ∈ positions, pos.1 ∉ candidates ∧ Decision.exit pos.1 = d := by
  unfold exitDecisions
  simp [List.mem_filter, and_assoc]

end Winners

/-- Claim C1: on candidates A>B>C, positions {D:10}, prices_now
{A:9.9, B:10.1, C:5.0} and prices_prior_close {A:10, B:10, C:5, D:20},
`decide` returns exactly Exit(D), Enter(A), Hold(B), Hold(C). -/
theorem decide_concrete_example :
    Winners.decide ["A", "B", "C"] [("D", 10)]
      [("A", 9.9), ("B", 10.1), ("C", 5.0)]
      [("A", 10.0), ("B", 10.0), ("C", 5.0), ("D", 20.0)] =
    .ok [.exit "D", .enter "A", .hold "B", .hold "C"] := by
  norm_num [Winners.decide, Winners.decideCandidates, Winners.candidateDecision,
    Winners.lookupPrice, Winners.intradayReturn, Winners.heldIds, List.find?]
  simp
  norm_num

/-- Claim C2: for a candidate identifier with both prices defined and a
positive prior close, `decide` emits Enter exactly when the intraday return
`(now - prior) / prior` is strictly negative and the identifier has no
existing position; an intraday return of exactly zero yields Hold, not
Enter. -/
theorem decide_enter_iff_negative_return
    (candidates : List Winners.Identifier) (positions : Winners.Positions)
    (pn ppc : Winners.PriceSnapshot) (ds : List Winners.Decision)
    (id : Winners.Identifier) (n p : ℚ)
    (hok : Winners.decide candidates positions pn ppc = .ok ds)
    (hc : id ∈ candidates)
    (hn : Winners.lookupPrice pn id = some n)
    (hp : Winners.lookupPrice ppc id = some p)
    (hpos : 0 < p) :
    (Winners.Decision.enter id ∈ ds ↔
      ((n - p) / p < 0 ∧ id ∉ Winners.heldIds positions)) ∧
    ((n - p) / p = 0 → Winners.Decision.hold id ∈ ds) := by
  obtain ⟨cds, hcds, hds⟩ := Winners.decide_eq_ok_iff.mp hok
  subst hds
  have h0 : p ≠ 0 := ne_of_gt hpos
  have hiff := @Winners.candidateDecision_enter_iff positions pn ppc id n p hn hp h0
  have hret_eq : Winners.intradayReturn n p = (n - p) / p := rfl
  constructor
  · constructor
    · intro hmem
      rcases List.mem_append.mp hmem with hmem | hmem
      · rcases Winners.mem_exitDecisions_iff.mp hmem with ⟨pos, _, _, heq⟩
        cases heq
      · obtain ⟨id', hid', hcd'⟩ := Winners.decideCandidates_mem_ok hcds hmem
        obtain ⟨heq, n', p', hn', hp', h0', hret', hheld'⟩ :=
          Winners.candidateDecision_enter_inversion hcd'
        subst heq
        rw [hn] at hn'
        rw [hp] at hp'
        cases hn'
        cases hp'
        exact ⟨hret_eq ▸ hret', hheld'⟩
    · intro hcond
      have hcd : Winners.candidateDecision positions pn ppc id = .ok (.enter id) :=
        hiff.1.mpr ⟨hret_eq ▸ hcond.1, hcond.2⟩
      exact List.mem_append.mpr (Or.inr (Winners.decideCandidates_ok_of_mem hcds hc hcd))
  · intro hzero
    have hnotneg : ¬(Winners.intradayReturn n p < 0 ∧ id ∉ Winners.heldIds positions) := by
      rw [hret_eq, hzero]
      intro hcontra
      exact lt_irrefl 0 hcontra.1
    have hcd : Winners.candidateDecision positions pn ppc id = .ok (.hold id) :=
      hiff.2.mpr hnotneg
    exact List.mem_append.mpr (Or.inr (Winners.decideCandidates_ok_of_mem hcds hc hcd))

/-- Witness for C2 at candidates = [A], positions = ∅, now = 1, prior = 2. -/
theorem decide_enter_iff_negative_return_witness :
    (Winners.Decision.enter "A" ∈ [Winners.Decision.enter "A"] ↔
      (((1 : ℚ) - 2) / 2 < 0 ∧ "A" ∉ Winners.heldIds [])) ∧
    (((1 : ℚ) - 2) / 2 = 0 →
      Winners.Decision.hold "A" ∈ [Winners.Decision.enter "A"]) :=
  decide_enter_iff_negative_return ["A"] [] [("A", 1)] [("A", 2)]
    [.enter "A"] "A" 1 2
    (by norm_num [Winners.decide, Winners.decideCandidates,
      Winners.candidateDecision, Winners.lookupPrice, Winners.intradayReturn,
      Winners.heldIds, List.find?])
    (by simp) rfl rfl (by norm_num)

/-- Claim C3 counterexample: the held, non-candidate identifier D has a prior
close of zero recorded in prices_prior_close, yet `decide` does not raise
DataError: it returns the Exit decision for D. -/
theorem decide_zero_prior_close_counterexample :
    Winners.decide [] [("D", 1)] [] [("D", 0)] = .ok [.exit "D"] := rfl

/-- Claim C3 (amended to candidate identifiers, whose prior closes are the
ones the engine divides by): if some candidate identifier has a prior close of
zero, `decide` raises DataError and returns no decisions. -/
theorem decide_zero_prior_close_error
    (candidates : List Winners.Identifier) (positions : Winners.Positions)
    (pn ppc : Winners.PriceSnapshot) (id : Winners.Identifier)
    (hc : id ∈ candidates)
    (hp : Winners.lookupPrice ppc id = some 0) :
    ∃ e, Winners.decide candidates positions pn ppc = .error e := by
  obtain ⟨e, he⟩ :=
    @Winners.candidateDecision_error_of_zero_prior positions pn ppc id hp
  exact Winners.decide_eq_error_of_candidate_error hc he

/-- Witness for the amended C3: candidate A with prior close 0. -/
theorem decide_zero_prior_close_error_witness :
    ∃ e, Winners.decide ["A"] [] [("A", 1)] [("A", 0)] = .error e :=
  decide_zero_prior_close_error ["A"] [] [("A", 1)] [("A", 0)] "A"
    (by simp) rfl

/-- Claim C4 counterexample: prices_now and prices_prior_close are both empty
while the held identifier D is in candidates ∪ keys(positions), yet `decide`
does not raise DataError: it returns the Exit decision for D.  The engine
looks prices up only for candidates, as the `rebalance` code requests prices
only for `context.winners`. -/
theorem decide_missing_price_counterexample :
    Winners.decide [] [("D", 10)] [] [] = .ok [.exit "D"] := rfl

/-- Claim C4 (amended to candidate identifiers): if prices_now or
prices_prior_close lacks an entry for some candidate identifier, `decide`
raises DataError and emits no decisions at all. -/
theorem decide_missing_candidate_price_error
    (candidates : List Winners.Identifier) (positions : Winners.Positions)
    (pn ppc : Winners.PriceSnapshot) (id : Winners.Identifier)
    (hc : id ∈ candidates)
    (hmiss : Winners.lookupPrice pn id = none ∨
      Winners.lookupPrice ppc id = none) :
    ∃ e, Winners.decide candidates positions pn ppc = .error e := by
  obtain ⟨e, he⟩ := Winners.candidateDecision_error_of_missing hmiss
  exact Winners.decide_eq_error_of_candidate_error hc he

/-- Witness for the amended C4: candidate A with no prices at all. -/
theorem decide_missing_candidate_price_error_witness :
    ∃ e, Winners.decide ["A"] [] [] [] = .error e :=
  decide_missing_candidate_price_error ["A"] [] [] [] "A" (by simp)
    (Or.inl rfl)

namespace Winners

theorem contains_eq_false_iff {l : List Identifier} {a : Identifier} :
    l.contains a = false ↔ a ∉ l := by
  simp

theorem mem_filter_dropped {candidates : List Identifier}
    {positions : Positions} {pos : Identifier × ℚ} :
    pos ∈ positions.filter (fun pos => !(candidates.contains pos.1)) ↔
    pos ∈ positions ∧ pos.1 ∉ candidates := by
  simp [List.mem_filter]

theorem decideCandidates_isExit_false {positions : Positions}
    {pn ppc : PriceSnapshot} {l : List Identifier} {ds : List Decision}
    (h : decideCandidates positions pn ppc l = .ok ds) {d : Decision}
    (hd : d ∈ ds) :
    Decision.isExit d = false := by
  obtain ⟨id, _, hcd⟩ := decideCandidates_mem_ok h hd
  rcases candidateDecision_ok_shape hcd with h' | h' <;> subst h' <;> rfl

theorem decideCandidates_enter_mem {positions : Positions}
    {pn ppc : PriceSnapshot} {l : List Identifier} {ds : List Decision}
    (h : decideCandidates positions pn ppc l = .ok ds) {id : Identifier}
    (hd : Decision.enter id ∈ ds) :
    id ∈ l := by
  obtain ⟨id', hid', hcd⟩ := decideCandidates_mem_ok h hd
  rcases candidateDecision_ok_shape hcd with h' | h'
  · injection h' with hh
    subst hh
    exact hid'
  · cases h'

theorem decideCandidates_hold_mem {positions : Positions}
    {pn ppc : PriceSnapshot} {l : List Identifier} {ds : List Decision}
    (h : decideCandidates positions pn ppc l = .ok ds) {id : Identifier}
    (hd : Decision.hold id ∈ ds) :
    id ∈ l := by
  obtain ⟨id', hid', hcd⟩ := decideCandidates_mem_ok h hd
  rcases candidateDecision_ok_shape hcd with h' | h'
  · cases h'
  · injection h' with hh
    subst hh
    exact hid'

theorem count_map_exit_fst (l : List (Identifier × ℚ)) (id : Identifier)
    (hnodup : (l.map Prod.fst).Nodup) (hid : id ∈ l.map Prod.fst) :
    (l.map (fun pos => Decision.exit pos.1)).count (Decision.exit id) = 1 := by
  have h1 : l.map (fun pos => Decision.exit pos.1) =
      (l.map Prod.fst).map Decision.exit := by
    rw [List.map_map, Function.comp_def]
  rw [h1,
    List.count_map_of_injective _ _ (fun a b hab => by injection hab) id]
  exact List.count_eq_one_of_mem hnodup hid

end Winners

/-- Claim C5: every identifier held in positions but absent from candidates
yields exactly one Exit decision and no Enter or Hold decision; when
candidates is empty, the output is exactly one Exit per held identifier, in
the order the positions were supplied. -/
theorem decide_exits_for_dropped_positions
    (candidates : List Winners.Identifier) (positions : Winners.Positions)
    (pn ppc : Winners.PriceSnapshot) (ds : List Winners.Decision)
    (hnodup : (Winners.heldIds positions).Nodup)
    (hok : Winners.decide candidates positions pn ppc = .ok ds) :
    (∀ id, id ∈ Winners.heldIds positions → id ∉ candidates →
      ds.count (Winners.Decision.exit id) = 1 ∧
      Winners.Decision.enter id ∉ ds ∧
      Winners.Decision.hold id ∉ ds) ∧
    (candidates = [] →
      ds = positions.map (fun pos => Winners.Decision.exit pos.1)) := by
  obtain ⟨cds, hcds, hds⟩ := Winners.decide_eq_ok_iff.mp hok
  subst hds
  constructor
  · intro id hid hnc
    refine ⟨?_, ?_, ?_⟩
    · rw [List.count_append]
      have h1 : (Winners.exitDecisions candidates positions).count
          (Winners.Decision.exit id) = 1 := by
        unfold Winners.exitDecisions
        apply Winners.count_map_exit_fst
        · exact List.Nodup.sublist
            (List.Sublist.map Prod.fst (List.filter_sublist positions)) hnodup
        · obtain ⟨pos, hpos, hfst⟩ := List.mem_map.mp hid
          exact List.mem_map.mpr ⟨pos,
            Winners.mem_filter_dropped.mpr ⟨hpos, hfst ▸ hnc⟩, hfst⟩
      have h2 : cds.count (Winners.Decision.exit id) = 0 := by
        rw [List.count_eq_zero]
        intro hmem
        have hfalse := Winners.decideCandidates_isExit_false hcds hmem
        simp [Winners.Decision.isExit] at hfalse
      rw [h1, h2]
    · intro hmem
      rcases List.mem_append.mp hmem with hmem | hmem
      · rcases Winners.mem_exitDecisions_iff.mp hmem with ⟨pos, _, _, heq⟩
        cases heq
      · exact hnc (Winners.decideCandidates_enter_mem hcds hmem)
    · intro hmem
      rcases List.mem_append.mp hmem with hmem | hmem
      · rcases Winners.mem_exitDecisions_iff.mp hmem with ⟨pos, _, _, heq⟩
        cases heq
      · exact hnc (Winners.decideCandidates_hold_mem hcds hmem)
  · intro hempty
    subst hempty
    unfold Winners.decideCandidates at hcds
    cases hcds
    unfold Winners.exitDecisions
    have hfil : List.filter (fun pos => !(([] : List Winners.Identifier).contains pos.1))
        positions = positions :=
      List.filter_eq_self.mpr (fun a _ => rfl)
    rw [List.append_nil, hfil]

/-- Witness for C5: positions = {D:1}, empty candidate set, output Exit(D). -/
theorem decide_exits_for_dropped_positions_witness :
    ([Winners.Decision.exit "D"].count (Winners.Decision.exit "D") = 1 ∧
      Winners.Decision.enter "D" ∉ [Winners.Decision.exit "D"] ∧
      Winners.Decision.hold "D" ∉ [Winners.Decision.exit "D"]) :=
  (decide_exits_for_dropped_positions [] [("D", 1)] [] [] [.exit "D"]
      (by simp [Winners.heldIds]) rfl).1 "D" (by simp [Winners.heldIds])
    (by simp)

/-- Claim C6: the output of `decide` is deterministically ordered: all Exit
decisions come first — exactly the Exits for dropped positions, in the order
the positions were supplied — and the Enter decisions that follow appear in
candidate rank order (the entered identifiers form an order-preserving
sublist of the candidate list). -/
theorem decide_output_order
    (candidates : List Winners.Identifier) (positions : Winners.Positions)
    (pn ppc : Winners.PriceSnapshot) (ds : List Winners.Decision)
    (hok : Winners.decide candidates positions pn ppc = .ok ds) :
    ds = ds.filter Winners.Decision.isExit ++
      ds.filter (fun d => !(Winners.Decision.isExit d)) ∧
    ds.filter Winners.Decision.isExit =
      Winners.exitDecisions candidates positions ∧
    ∃ entered : List Winners.Identifier, entered.Sublist candidates ∧
      ds.filter Winners.Decision.isEnter = entered.map Winners.Decision.enter := by
  obtain ⟨cds, hcds, hds⟩ := Winners.decide_eq_ok_iff.mp hok
  subst hds
  have hex : List.filter Winners.Decision.isExit
      (Winners.exitDecisions candidates positions) =
      Winners.exitDecisions candidates positions :=
    List.filter_eq_self.mpr (fun d hd => by
      rcases Winners.mem_exitDecisions_iff.mp hd with ⟨pos, _, _, heq⟩
      subst heq
      rfl)
  have hcds_noexit : List.filter Winners.Decision.isExit cds = [] :=
    List.filter_eq_nil_iff.mpr (fun d hd => by
      rw [Winners.decideCandidates_isExit_false hcds hd]
      exact Bool.false_ne_true)
  have hnotex : List.filter (fun d => !(Winners.Decision.isExit d))
      (Winners.exitDecisions candidates positions) = [] :=
    List.filter_eq_nil_iff.mpr (fun d hd => by
      rcases Winners.mem_exitDecisions_iff.mp hd with ⟨pos, _, _, heq⟩
      subst heq
      simp [Winners.Decision.isExit])
  have hcds_all : List.filter (fun d => !(Winners.Decision.isExit d)) cds = cds :=
    List.filter_eq_self.mpr (fun d hd => by
      rw [Winners.decideCandidates_isExit_false hcds hd]
      rfl)
  have hexent : List.filter Winners.Decision.isEnter
      (Winners.exitDecisions candidates positions) = [] :=
    List.filter_eq_nil_iff.mpr (fun d hd => by
      rcases Winners.mem_exitDecisions_iff.mp hd with ⟨pos, _, _, heq⟩
      subst heq
      simp [Winners.Decision.isEnter])
  refine ⟨?_, ?_, ?_⟩
  · simp only [List.filter_append, hex, hcds_noexit, hnotex, hcds_all,
      List.append_nil, List.nil_append]
  · simp only [List.filter_append, hex, hcds_noexit, List.append_nil]
  · obtain ⟨entered, hsub, hfil⟩ :=
      Winners.decideCandidates_filter_enter_sublist hcds
    refine ⟨entered, hsub, ?_⟩
    rw [List.filter_append, hexent, hfil, List.nil_append]

/-- Witness for C6: candidates = [A] (held prices equal, so A holds),
positions = {D:1}; output is Exit(D) then Hold(A). -/
theorem decide_output_order_witness :
    List.filter Winners.Decision.isExit
      [Winners.Decision.exit "D", Winners.Decision.hold "A"] =
    Winners.exitDecisions ["A"] [("D", 1)] :=
  (decide_output_order ["A"] [("D", 1)] [("A", 1)] [("A", 1)]
    [.exit "D", .hold "A"]
    (by
      norm_num [Winners.decide, Winners.decideCandidates,
        Winners.candidateDecision, Winners.lookupPrice, Winners.intradayReturn,
        Winners.heldIds, List.find?]
      simp)).2.1

/-- Claim C7: every Enter decision is for a candidate that is not already
held and whose intraday-return condition holds (prices defined, prior close
nonzero, return strictly negative); every Exit decision is for a held
identifier absent from the candidate set; hence no Enter is ever emitted for
an identifier already in positions. -/
theorem decide_enter_exit_invariants
    (candidates : List Winners.Identifier) (positions : Winners.Positions)
    (pn ppc : Winners.PriceSnapshot) (ds : List Winners.Decision)
    (hok : Winners.decide candidates positions pn ppc = .ok ds) :
    (∀ id, Winners.Decision.enter id ∈ ds →
      id ∈ candidates ∧ id ∉ Winners.heldIds positions ∧
      ∃ n p, Winners.lookupPrice pn id = some n ∧
        Winners.lookupPrice ppc id = some p ∧ p ≠ 0 ∧
        Winners.intradayReturn n p < 0) ∧
    (∀ id, Winners.Decision.exit id ∈ ds →
      id ∈ Winners.heldIds positions ∧ id ∉ candidates) := by
  obtain ⟨cds, hcds, hds⟩ := Winners.decide_eq_ok_iff.mp hok
  subst hds
  constructor
  · intro id hmem
    rcases List.mem_append.mp hmem with hmem | hmem
    · rcases Winners.mem_exitDecisions_iff.mp hmem with ⟨pos, _, _, heq⟩
      cases heq
    · obtain ⟨id', hid', hcd⟩ := Winners.decideCandidates_mem_ok hcds hmem
      obtain ⟨heq, n, p, hn, hp, h0, hret, hheld⟩ :=
        Winners.candidateDecision_enter_inversion hcd
      subst heq
      exact ⟨hid', hheld, n, p, hn, hp, h0, hret⟩
  · intro id hmem
    rcases List.mem_append.mp hmem with hmem | hmem
    · rcases Winners.mem_exitDecisions_iff.mp hmem with ⟨pos, hpos, hnc, heq⟩
      injection heq with hh
      subst hh
      exact ⟨List.mem_map.mpr ⟨pos, hpos, rfl⟩, hnc⟩
    · have hfalse := Winners.decideCandidates_isExit_false hcds hmem
      simp [Winners.Decision.isExit] at hfalse

/-- Witness for C7 at the Exit invariant: Exit(D) implies D was held and is
not a candidate. -/
theorem decide_enter_exit_invariants_witness :
    "D" ∈ Winners.heldIds [("D", (1 : ℚ))] ∧ "D" ∉ ["A"] :=
  (decide_enter_exit_invariants ["A"] [("D", 1)] [("A", 1)] [("A", 1)]
    [.exit "D", .hold "A"]
    (by
      norm_num [Winners.decide, Winners.decideCandidates,
        Winners.candidateDecision, Winners.lookupPrice, Winners.intradayReturn,
        Winners.heldIds, List.find?]
      simp)).2 "D" (by simp)

/-- Claim C8: `decide` is a stateless pure function — two invocations with
identical candidates, positions, and price snapshots produce identical
outputs; no state outside the four arguments can make the results differ. -/
theorem decide_pure_deterministic
    (c₁ c₂ : List Winners.Identifier) (p₁ p₂ : Winners.Positions)
    (pn₁ pn₂ ppc₁ ppc₂ : Winners.PriceSnapshot)
    (hc : c₁ = c₂) (hp : p₁ = p₂) (hn : pn₁ = pn₂) (hppc : ppc₁ = ppc₂) :
    Winners.decide c₁ p₁ pn₁ ppc₁ = Winners.decide c₂ p₂ pn₂ ppc₂ := by
  subst hc
  subst hp
  subst hn
  subst hppc
  rfl

/-- Witness for C8: two invocations on equal concrete inputs agree. -/
theorem decide_pure_deterministic_witness :
    Winners.decide ["A"] [] [("A", 2)] [("A", 1)] =
      Winners.decide ["A"] [] [("A", 2)] [("A", 1)] :=
  decide_pure_deterministic ["A"] ["A"] [] [] [("A", 2)] [("A", 2)]
    [("A", 1)] [("A", 1)] rfl rfl rfl rfl

/-- Claim C9: `before_trading_start` selects at most three identifiers —
exactly the first three of the factor table sorted by 1-year return in
descending order — so every selected (top-ranked) entry has a return at
least as large as every entry left out. -/
theorem before_trading_start_top3 (factors : List (Winners.Identifier × ℚ)) :
    (Winners.before_trading_start factors).length ≤ 3 ∧
    Winners.before_trading_start factors =
      ((Winners.sortValuesDescending factors).map Prod.fst).take 3 ∧
    ∀ i j : Fin (Winners.sortValuesDescending factors).length,
      i.val < 3 → 3 ≤ j.val →
      ((Winners.sortValuesDescending factors).get j).2 ≤
        ((Winners.sortValuesDescending factors).get i).2 := by
  refine ⟨?_, rfl, ?_⟩
  · unfold Winners.before_trading_start
    rw [List.length_take]
    exact min_le_left _ _
  · have hsorted := @List.sorted_mergeSort (Winners.Identifier × ℚ)
      (fun a b => Decidable.decide (b.2 ≤ a.2))
      (fun a b c hab hbc => by
        simp only [decide_eq_true_eq] at hab hbc ⊢
        exact le_trans hbc hab)
      (fun a b => by
        rcases le_total a.2 b.2 with h | h
        · simp [h]
        · simp [h])
      factors
    have hpair := List.pairwise_iff_get.mp hsorted
    intro i j hi hj
    have hij : i < j := Fin.lt_def.mpr (lt_of_lt_of_le hi hj)
    have hle := hpair i j hij
    simpa using hle

/-- Witness for C9: a concrete four-row factor table selects three
identifiers. -/
theorem before_trading_start_top3_witness :
    (Winners.before_trading_start
      [("A", 1), ("B", 3), ("C", 2), ("D", 0)]).length ≤ 3 :=
  (before_trading_start_top3 [("A", 1), ("B", 3), ("C", 2), ("D", 0)]).1

/-- Claim C10: `decide` reads prices only for candidate identifiers, so two
runs whose snapshots agree on every candidate (but may differ arbitrarily on
non-candidate identifiers) produce the same Exit portion of the output. -/
theorem decide_ignores_noncandidate_prices
    (candidates : List Winners.Identifier) (positions : Winners.Positions)
    (pn pn' ppc ppc' : Winners.PriceSnapshot)
    (h : ∀ id ∈ candidates,
      Winners.lookupPrice pn id = Winners.lookupPrice pn' id ∧
      Winners.lookupPrice ppc id = Winners.lookupPrice ppc' id) :
    Winners.exitPortion (Winners.decide candidates positions pn ppc) =
      Winners.exitPortion (Winners.decide candidates positions pn' ppc') := by
  have hfull : Winners.decide candidates positions pn ppc =
      Winners.decide candidates positions pn' ppc' := by
    unfold Winners.decide
    rw [Winners.decideCandidates_congr h]
  rw [hfull]

/-- Witness for C10: the held identifier D appears with different prices in
the two snapshot pairs, and the Exit portions still agree. -/
theorem decide_ignores_noncandidate_prices_witness :
    Winners.exitPortion
      (Winners.decide ["A"] [("D", 1)] [("A", 1), ("D", 5)] [("A", 1)]) =
    Winners.exitPortion
      (Winners.decide ["A"] [("D", 1)] [("A", 1), ("D", 7)]
        [("A", 1), ("D", 3)]) :=
  decide_ignores_noncandidate_prices ["A"] [("D", 1)] [("A", 1), ("D", 5)]
    [("A", 1), ("D", 7)] [("A", 1)] [("A", 1), ("D", 3)]
    (fun id hid => by
      simp only [List.mem_singleton] at hid
      subst hid
      exact ⟨rfl, rfl⟩)
